import Mathlib

/-!
Verification of the virus_radar forecasting and location-resolution pipeline.

This file shallowly embeds the core of the repository:
  * `Geocoder.geocode` from `geocode.py` (the GeoIndex resolution),
  * `find_closest_klaerwerk` from `app.py` (the nearest-site resolution),
  * `add_forecasts` from `app.py` (the per-group seasonal forecasting).

Modelling conventions:
  * Python floats are modelled as exact rationals (`ℚ`); float rounding is
    abstracted away.  The float `NaN` produced by pandas when a `None`
    enters a float column is modelled explicitly (`DVal.nan`, `Cell.na`).
  * A pandas `DataFrame` is modelled as a list of rows.  For the forecast
    pipeline a row is a date index plus an association list of cells; a
    missing key plays the role of a missing (NaN) cell, exactly as a
    column absent from one frame of a `pd.concat(..., join='outer')`.
  * Python `str.lower` is modelled by `lowerStr` (per-character lowering),
    Python string comparison (used by `sorted`) by `pyStrLe`
    (code-point lexicographic), and pandas `str.contains(..., case=False,
    regex=False)` by `containsCI`.
  * Code that raises an exception is modelled with the result type
    `PyRes`: `PyRes.exn` is a raised Python exception (never a normal
    return value), `PyRes.ok` a normal return.
  * `x ** 0.5` on a nonnegative float is strictly monotone and maps NaN to
    NaN, so distances are carried as `DVal.sqrtOf q` (the square root of
    the exact radicand `q`); comparing two such values compares the
    radicands, which agrees with comparing the square roots.
-/

namespace VirusRadar

/-- Result of running a piece of Python code: either a normal return value
or a raised exception. -/
inductive PyRes (ε α : Type) : Type
  | ok (a : α)
  | exn (e : ε)
deriving DecidableEq, Repr

/-- Model of Python `str.lower()`: lower-case every character.  (Lean's
`Char.toLower` lowers the ASCII range; the difference to full Unicode
lowering is immaterial here.) -/
def lowerStr (s : String) : String := ⟨s.data.map Char.toLower⟩

/-- Code-point comparison of characters, as Python compares strings. -/
def charsLe : List Char → List Char → Bool
  | [], _ => true
  | _ :: _, [] => false
  | a :: as, b :: bs =>
    if a.toNat < b.toNat then true
    else if b.toNat < a.toNat then false
    else charsLe as bs

/-- Model of Python string `<=` (code-point lexicographic), the order used
by `sorted` on the site names. -/
def pyStrLe (s t : String) : Bool := charsLe s.data t.data

/-- Helper for substring search: does the second list contain the first as
a contiguous sublist? -/
def subAux (pat : List Char) : List Char → Bool
  | [] => pat.isEmpty
  | c :: rest => pat.isPrefixOf (c :: rest) || subAux pat rest

/-- Model of `hay.str.contains(pat, case=False, regex=False)` applied to a
single value: case-insensitive substring test. -/
def containsCI (hay pat : String) : Bool :=
  subAux (lowerStr pat).data (lowerStr hay).data

/-- One record of the GeoNames `cities1000` table, restricted to the
columns `Geocoder.geocode` actually consults.  `alternatenames` is
frequently empty in the dataset (pandas `NaN`), hence an `Option`;
`str.contains(..., na=False)` maps that case to no match. -/
structure Place where
  name : String
  asciiname : String
  alternatenames : Option String
  latitude : ℚ
  longitude : ℚ
  country_code : String
  population : Int
deriving DecidableEq, Repr

/-- Model of `result.sort_values(by='population', ascending=False).head(1)`
in `Geocoder.geocode`: keep one element of maximal population.  pandas'
default sort is deterministic but its tie order among equal populations is
unspecified; the model resolves ties to the first row in table order. -/
def sortPopDescHead1 (l : List Place) : List Place :=
  match l with
  | [] => []
  | b :: t => [t.foldl (fun x p => if x.population < p.population then p else x) b]

/-- The optional case-insensitive country restriction of
`Geocoder.geocode` (`if country: data = data[...lower() == country.lower()]`;
an empty string is falsy in Python and applies no filter). -/
def countryFilter (data : List Place) (country : Option String) : List Place :=
  match country with
  | none => data
  | some c =>
      if c = "" then data
      else data.filter (fun p => lowerStr p.country_code == lowerStr c)

/-- Stage 1 candidates: exact case-insensitive match on `name`. -/
def nameMatches (data1 : List Place) (city : String) : List Place :=
  data1.filter (fun p => lowerStr p.name == lowerStr city)

/-- Stage 2 candidates: exact case-insensitive match on `asciiname`. -/
def asciiMatches (data1 : List Place) (city : String) : List Place :=
  data1.filter (fun p => lowerStr p.asciiname == lowerStr city)

/-- Stage 3 candidates: case-insensitive substring match against
`alternatenames` (`str.contains(city.lower(), case=False, na=False,
regex=False)`; a missing `alternatenames` cell matches nothing). -/
def altMatches (data1 : List Place) (city : String) : List Place :=
  data1.filter (fun p =>
    match p.alternatenames with
    | some s => containsCI s city
    | none => false)

/-- Embedding of `Geocoder.geocode` from `geocode.py`: optional
case-insensitive country restriction, then exact case-insensitive match on
`name`, else on `asciiname`, else case-insensitive substring match against
`alternatenames`; of several candidates the one with the highest
population is returned; no candidate at all gives `(None, None)`,
modelled as `none`. -/
def geocode (data : List Place) (city : String) (country : Option String) :
    Option (ℚ × ℚ) :=
  let data1 := countryFilter data country
  let r1 := nameMatches data1 city
  let r2 := if r1.isEmpty then asciiMatches data1 city else r1
  let r3 := if r2.isEmpty then altMatches data1 city else r2
  let r4 := if r3.length > 1 then sortPopDescHead1 r3 else r3
  match r4 with
  | [] => none
  | p :: _ => some (p.latitude, p.longitude)

/-- Modelled from the spec (`GeoIndex.resolve`, section 4.1): restrict to
the country if given; attempt exact case-insensitive match on `name`; if
no match, exact case-insensitive match on `asciiName`; if no match,
substring case-insensitive match against `alternateNames`; if multiple
candidates survive a stage, select the one with the highest `population`,
ties broken deterministically by first position in table order (the
spec's suggested tie-break); return `NotFound` (`none`) if no stage
yields a candidate. -/
def stagedResolve (data : List Place) (city : String) (country : Option String) :
    Option (ℚ × ℚ) :=
  let cands := countryFilter data country
  let s1 := nameMatches cands city
  let s2 := asciiMatches cands city
  let s3 := altMatches cands city
  let stage := if s1 ≠ [] then s1 else if s2 ≠ [] then s2 else s3
  (List.argmax Place.population stage).map (fun p => (p.latitude, p.longitude))

/-- Value of the pandas `distance` column: either a proper float (carried
as the square root of an exact radicand) or `NaN`. -/
inductive DVal : Type
  | nan
  | sqrtOf (q : ℚ)
deriving DecidableEq, Repr

/-- Model of `x * x` (`x ** 2` in the source). -/
def pySq (x : ℚ) : ℚ := x * x

/-- Distance of one site to the user, as computed row-wise in
`find_closest_klaerwerk`:
`((lat - user_lat) ** 2 + (lon - user_lon) ** 2) ** 0.5`.
When `geocode` returned `(None, None)` the latitude/longitude cells are
`NaN` (pandas converts `None` to `NaN` in a float column) and every
arithmetic step propagates `NaN`. -/
def siteDistance (uLat uLon : ℚ) : Option (ℚ × ℚ) → DVal
  | none => DVal.nan
  | some c => DVal.sqrtOf (pySq (c.1 - uLat) + pySq (c.2 - uLon))

/-- The `distance` column of `find_closest_klaerwerk`: one entry per
distinct site name, in order, each obtained by geocoding the name with
`country='DE'`. -/
def siteDistances (geo : List Place) (names : List String) (uLat uLon : ℚ) :
    List DVal :=
  names.map (fun s => siteDistance uLat uLon (geocode geo s (some "DE")))

/-- Pair each element with its positional index, starting at `n`. -/
def withIdx : ℕ → List DVal → List (ℕ × DVal)
  | _, [] => []
  | n, d :: rest => (n, d) :: withIdx (n + 1) rest

/-- The non-`NaN` entries of a distance column, with their indices. -/
def dvalPairs (l : List DVal) : List (ℕ × ℚ) :=
  (withIdx 0 l).filterMap (fun p =>
    match p.2 with
    | DVal.sqrtOf q => some (p.1, q)
    | DVal.nan => none)

/-- Model of `Series.idxmin()`: the index of the first occurrence of the
minimum among the non-`NaN` entries (`skipna=True`); `none` when every
entry is `NaN` or the column is empty, in which case the source raises. -/
def idxmin (l : List DVal) : Option ℕ :=
  (List.argmin Prod.snd (dvalPairs l)).map Prod.fst

/-- Keep the first occurrence of every value, dropping later duplicates
(the order `pandas.unique` uses). -/
def firstUniquesAux [DecidableEq α] (seen : List α) : List α → List α
  | [] => []
  | a :: l =>
    if a ∈ seen then firstUniquesAux seen l
    else a :: firstUniquesAux (a :: seen) l

/-- Model of `pandas.unique`: distinct values in first-occurrence order. -/
def firstUniques [DecidableEq α] (l : List α) : List α := firstUniquesAux [] l

/-- Model of `sorted(df['standort'].dropna().unique())`: the distinct
names sorted by Python string comparison.  The input to the sort has no
duplicates, so any sorting algorithm produces the same list; insertion
sort is used here. -/
def distinctSorted (l : List String) : List String :=
  List.insertionSort (fun s t => pyStrLe s t = true) (firstUniques l)

/-- Core of `find_closest_klaerwerk` once the distinct sorted site names
are fixed: geocode every name, build the distance column, take `idxmin`
and look the winner up with `.loc`.  An all-`NaN` or empty distance
column makes `idxmin`/`.loc` raise, modelled as `PyRes.exn`. -/
def findClosestNames (geo : List Place) (names : List String) (uLat uLon : ℚ) :
    PyRes String String :=
  match idxmin (siteDistances geo names uLat uLon) with
  | some i =>
      match names[i]? with
      | some s => PyRes.ok s
      | none => PyRes.exn "KeyError"
  | none => PyRes.exn "ValueError: idxmin over empty or all-NaN distances"

/-- Embedding of `find_closest_klaerwerk` from `app.py`.  `standortCol` is
the `standort` column (with `none` for null cells); `geo` is the loaded
GeoNames table of the `Geocoder` the function constructs. -/
def find_closest_klaerwerk (geo : List Place) (standortCol : List (Option String))
    (uLat uLon : ℚ) : PyRes String String :=
  findClosestNames geo (distinctSorted (standortCol.filterMap id)) uLat uLon

/-- One cell of the surveillance table: a string (for example the facet
column `Erkrankung`), a float, or missing (`NaN`). -/
inductive Cell : Type
  | str (s : String)
  | num (q : ℚ)
  | na
deriving DecidableEq, Repr

/-- One row of the time-indexed table: the `DatetimeIndex` entry (as a day
number; day `d` is a Friday exactly when `d % 7 = 1`, as for the Unix
epoch) and the cells keyed by column name.  A key missing from the
association list is a missing cell. -/
structure FRow where
  date : ℕ
  cells : List (String × Cell)
deriving DecidableEq, Repr

/-- Column access on a row; a missing column reads as `NaN`. -/
def getCell (r : FRow) (c : String) : Cell := (r.cells.lookup c).getD Cell.na

/-- Pandas `==` on cells: `NaN` compares unequal to everything, including
itself. -/
def cellEqPy (a b : Cell) : Bool :=
  match a, b with
  | Cell.na, _ => false
  | _, Cell.na => false
  | a, b => decide (a = b)

/-- The rows of one facet group: `df[df[facet_col] == illness]`. -/
def groupOf (df : List FRow) (facet : String) (v : Cell) : List FRow :=
  df.filter (fun r => cellEqPy (getCell r facet) v)

/-- Day `d` is a Friday. -/
def isFri (d : ℕ) : Bool := d % 7 == 1

/-- Model of `pd.date_range(start, end, freq='W-FRI')`: every Friday `f`
with `first ≤ f ≤ last`, ascending. -/
def fridaysFrom (first last : ℕ) : List ℕ :=
  (List.range (last + 1)).filter (fun d => decide (first ≤ d) && isFri d)

/-- Model of `df_illness.asfreq('W-FRI')`: reindex the rows onto the
weekly-Friday grid spanned by the first and last index entry.  A grid
date carrying an observation keeps that row; a grid date without one
becomes an all-missing row; a row whose date is off the grid is dropped
by the reindexing. -/
def asfreqWFRI (rows : List FRow) : List FRow :=
  match rows with
  | [] => []
  | r0 :: rest =>
      let lastRow := (r0 :: rest).getLast (List.cons_ne_nil r0 rest)
      (fridaysFrom r0.date lastRow.date).map (fun d =>
        match (r0 :: rest).find? (fun r => r.date == d) with
        | some r => r
        | none => { date := d, cells := [] })

/-- The exceptions the `ExponentialSmoothing(...).fit()` step can raise. -/
inductive FitErr : Type
  | missingData
  | insufficientHistory
deriving DecidableEq, Repr

/-- Is this cell a proper float? -/
def isNumCell : Cell → Bool
  | Cell.num _ => true
  | _ => false

/-- Modelled from the spec (section 4.3 failure policy) and the statsmodels
interface used by `add_forecasts`, which is external library code: fitting
`ExponentialSmoothing(series, seasonal_periods=m, trend='add',
seasonal='add', use_boxcox=False, initialization_method='estimated')`
rejects a series containing missing values (`missingData`) and requires at
least two full seasonal cycles — at least `2 * m` observations —
otherwise the fit fails (`InsufficientHistory` in the spec's taxonomy).
On success, `model.forecast(hz)` produces `hz` values whose timestamps
continue the weekly cadence right after the last index entry.  The
forecast values themselves come from the numeric optimisation, which no
claim depends on; they are abstracted by the parameter `fitFn`, applied
to the observed values and the forecast step. -/
def fitAndForecast (fitFn : List ℚ → ℕ → ℚ) (m hz : ℕ) (rows : List FRow)
    (col : String) : PyRes FitErr (List (ℕ × ℚ)) :=
  let cells := rows.map (fun r => getCell r col)
  if cells.any (fun c => !(isNumCell c)) then PyRes.exn FitErr.missingData
  else
    let vals := cells.filterMap (fun c =>
      match c with
      | Cell.num q => some q
      | _ => none)
    if vals.length < 2 * m then PyRes.exn FitErr.insufficientHistory
    else
      let lastDate := ((rows.getLast?).map FRow.date).getD 0
      PyRes.ok ((List.range hz).map (fun k => (lastDate + 7 * (k + 1), fitFn vals (k + 1))))

/-- One iteration of the inner loop of `add_forecasts`: extract the group,
reindex it onto the weekly grid, fit and forecast, and build the forecast
frame whose rows carry the forecast value under `col + '_forecast'` and
the group tag under the facet column. -/
def groupForecastDf (fitFn : List ℚ → ℕ → ℚ) (m hz : ℕ) (facet col : String)
    (df : List FRow) (v : Cell) : PyRes FitErr (List FRow) :=
  let rows := asfreqWFRI (groupOf df facet v)
  match fitAndForecast fitFn m hz rows col with
  | PyRes.exn e => PyRes.exn e
  | PyRes.ok pts =>
      PyRes.ok (pts.map (fun p =>
        { date := p.1, cells := [(col ++ "_forecast", Cell.num p.2), (facet, v)] }))

/-- The inner loop of `add_forecasts` (`for illness in df[facet_col].unique()`),
collecting the forecast frames; the first raised exception propagates. -/
def loopIll (fitFn : List ℚ → ℕ → ℚ) (m hz : ℕ) (facet col : String)
    (df : List FRow) : List Cell → PyRes FitErr (List FRow)
  | [] => PyRes.ok []
  | v :: vs =>
      match groupForecastDf fitFn m hz facet col df v with
      | PyRes.exn e => PyRes.exn e
      | PyRes.ok fr =>
          match loopIll fitFn m hz facet col df vs with
          | PyRes.exn e => PyRes.exn e
          | PyRes.ok rest => PyRes.ok (fr ++ rest)

/-- The outer loop of `add_forecasts` (`for col in columns_to_forecast`). -/
def loopCols (fitFn : List ℚ → ℕ → ℚ) (m hz : ℕ) (facet : String)
    (df : List FRow) (uniq : List Cell) : List String → PyRes FitErr (List FRow)
  | [] => PyRes.ok []
  | c :: cs =>
      match loopIll fitFn m hz facet c df uniq with
      | PyRes.exn e => PyRes.exn e
      | PyRes.ok fr =>
          match loopCols fitFn m hz facet df uniq cs with
          | PyRes.exn e => PyRes.exn e
          | PyRes.ok rest => PyRes.ok (fr ++ rest)

/-- Embedding of `add_forecasts` from `app.py`: for every value column and
every distinct facet value, fit a seasonal model on the weekly-reindexed
group and forecast `prediction_horizon` steps; finally
`pd.concat([df] + forecast_dfs, join='outer')` appends all forecast
frames after the original rows.  The source installs no exception
handler, so a failing fit propagates out of the call (`PyRes.exn`). -/
def add_forecasts (fitFn : List ℚ → ℕ → ℚ) (df : List FRow)
    (columns_to_forecast : List String) (facet_col : String)
    (prediction_horizon : ℕ := 24) (periods : ℕ := 52) :
    PyRes FitErr (List FRow) :=
  match loopCols fitFn periods prediction_horizon facet_col df
      (firstUniques (df.map (fun r => getCell r facet_col))) columns_to_forecast with
  | PyRes.exn e => PyRes.exn e
  | PyRes.ok fdfs => PyRes.ok (df ++ fdfs)

/-- Remove from a row every column named `c + '_forecast'` for a
forecast-value column `c` — the filtering step of the round-trip check. -/
def dropForecastCols (cols : List String) (r : FRow) : FRow :=
  { r with cells := r.cells.filter (fun kv => !(cols.any (fun c => kv.1 == c ++ "_forecast"))) }

/-! ## Lemmas about the geocoding stages -/

/-- `List.argmax` on a nonempty list computes exactly the
keep-the-strictly-greater fold used to model the pandas sort-and-head
selection. -/
lemma argmax_cons_eq_foldl (t : List Place) (b : Place) :
    List.argmax Place.population (b :: t) =
      some (t.foldl (fun x p => if x.population < p.population then p else x) b) := by
  have haux : ∀ (t : List Place) (x : Place),
      List.foldl (List.argAux fun c d => Place.population d < Place.population c) (some x) t =
        some (t.foldl (fun x p => if x.population < p.population then p else x) x) := by
    intro t
    induction t with
    | nil => intro x; rfl
    | cons p t ih =>
        intro x
        have hstep :
            List.argAux (fun c d => Place.population d < Place.population c) (some x) p =
              some (if x.population < p.population then p else x) := by
          simp only [List.argAux]
          split <;> simp
        simp only [List.foldl_cons, hstep]
        exact ih _
  simp only [List.argmax, List.foldl_cons, List.argAux]
  exact haux t b

/-- The candidate-selection tail of `geocode` agrees with `argmax` by
population on the surviving stage. -/
lemma pick_eq_argmax (l : List Place) :
    (match (if l.length > 1 then sortPopDescHead1 l else l) with
      | [] => none
      | p :: _ => some (p.latitude, p.longitude)) =
      (List.argmax Place.population l).map (fun p => (p.latitude, p.longitude)) := by
  match l with
  | [] => simp [List.argmax]
  | [b] => simp [argmax_cons_eq_foldl]
  | b :: p :: t =>
      have hlen : (b :: p :: t).length > 1 := by simp
      simp only [hlen, if_pos, sortPopDescHead1, argmax_cons_eq_foldl, Option.map_some']

/-- C4.  `Geocoder.geocode` implements the staged resolution contract of
the spec: country restriction first, then exact case-insensitive `name`
match, else exact case-insensitive `asciiname` match, else
case-insensitive substring match on `alternatenames`, with the
highest-population candidate of the surviving stage selected and ties
broken deterministically by table order. -/
theorem geocode_follows_staged_spec (data : List Place) (city : String)
    (country : Option String) :
    geocode data city country = stagedResolve data city country := by
  unfold geocode stagedResolve
  cases h1 : nameMatches (countryFilter data country) city with
  | cons a l =>
      simp only [h1, List.isEmpty_cons, if_neg, Bool.false_eq_true, not_false_iff,
        ite_false, ite_true, List.cons_ne_nil, ne_eq, not_true_eq_false,
        not_false_eq_true, if_true]
      exact pick_eq_argmax (a :: l)
  | nil =>
      simp only [h1, List.isEmpty_nil, ite_true, ne_eq, not_true_eq_false, if_false]
      cases h2 : asciiMatches (countryFilter data country) city with
      | cons a l =>
          simp only [List.isEmpty_cons, Bool.false_eq_true, if_false,
            List.cons_ne_nil, not_false_eq_true, if_true]
          exact pick_eq_argmax (a :: l)
      | nil =>
          simp only [List.isEmpty_nil, if_true, not_true_eq_false, if_false]
          exact pick_eq_argmax _

/-- C7.  A city name that matches nothing — no exact case-insensitive
`name` match, no exact case-insensitive `asciiname` match, and no
case-insensitive substring occurrence in any present `alternatenames`
cell, within the country-filtered table — resolves to the representable
`NotFound` value `(None, None)`, modelled as `none`; the embedding is a
total function, so no exception is raised. -/
theorem geocode_absent_returns_notfound (data : List Place) (city : String)
    (country : Option String)
    (h : ∀ p ∈ countryFilter data country,
      lowerStr p.name ≠ lowerStr city ∧
      lowerStr p.asciiname ≠ lowerStr city ∧
      ∀ s, p.alternatenames = some s → containsCI s city = false) :
    geocode data city country = none := by
  have h1 : nameMatches (countryFilter data country) city = [] := by
    refine List.filter_eq_nil_iff.mpr ?_
    intro p hp
    simpa using (h p hp).1
  have h2 : asciiMatches (countryFilter data country) city = [] := by
    refine List.filter_eq_nil_iff.mpr ?_
    intro p hp
    simpa using (h p hp).2.1
  have h3 : altMatches (countryFilter data country) city = [] := by
    refine List.filter_eq_nil_iff.mpr ?_
    intro p hp
    cases halt : p.alternatenames with
    | none => simp
    | some s => simpa using (h p hp).2.2 s halt
  unfold geocode
  simp [h1, h2, h3]

/-- Concrete instance of C7: a two-row German table, and a city name
matching neither names, ascii names nor alternate names. -/
theorem geocode_absent_returns_notfound_witness :
    (∀ p ∈ countryFilter
        [{ name := "Berlin", asciiname := "Berlin",
           alternatenames := some "berlin,berlino", latitude := 52, longitude := 13,
           country_code := "DE", population := 3400000 },
         { name := "München", asciiname := "Munich",
           alternatenames := none, latitude := 48, longitude := 11,
           country_code := "DE", population := 1300000 }] (some "DE"),
      lowerStr p.name ≠ lowerStr "Erewhon" ∧
      lowerStr p.asciiname ≠ lowerStr "Erewhon" ∧
      ∀ s, p.alternatenames = some s → containsCI s "Erewhon" = false) ∧
    geocode
      [{ name := "Berlin", asciiname := "Berlin",
         alternatenames := some "berlin,berlino", latitude := 52, longitude := 13,
         country_code := "DE", population := 3400000 },
       { name := "München", asciiname := "Munich",
         alternatenames := none, latitude := 48, longitude := 11,
         country_code := "DE", population := 1300000 }] "Erewhon" (some "DE") = none := by
  refine ⟨by decide, geocode_absent_returns_notfound _ _ _ (by decide)⟩

/-! ## Lemmas about the Python string order -/

lemma charsLe_total : ∀ a b : List Char, charsLe a b = true ∨ charsLe b a = true := by
  intro a
  induction a with
  | nil => intro b; left; rfl
  | cons x xs ih =>
      intro b
      cases b with
      | nil => right; rfl
      | cons y ys =>
          by_cases h1 : x.toNat < y.toNat
          · left; simp [charsLe, h1]
          · by_cases h2 : y.toNat < x.toNat
            · right; simp [charsLe, h2]
            · rcases ih ys with h | h
              · left; simp [charsLe, h1, h2, h]
              · right; simp [charsLe, h1, h2, h]

lemma char_eq_of_toNat_eq {x y : Char} (h : x.toNat = y.toNat) : x = y := by
  apply Char.ext
  exact UInt32.ext h

lemma charsLe_trans :
    ∀ a b c : List Char, charsLe a b = true → charsLe b c = true → charsLe a c = true := by
  intro a
  induction a with
  | nil => intro b c _ _; rfl
  | cons x xs ih =>
      intro b c hab hbc
      cases b with
      | nil => simp [charsLe] at hab
      | cons y ys =>
          cases c with
          | nil => simp [charsLe] at hbc
          | cons z zs =>
              simp only [charsLe] at hab hbc ⊢
              by_cases h1 : x.toNat < y.toNat <;> by_cases h2 : y.toNat < z.toNat
              · rw [if_pos (show x.toNat < z.toNat by omega)]
              · by_cases h3 : z.toNat < y.toNat
                · rw [if_neg h2, if_pos h3] at hbc
                  simp at hbc
                · rw [if_pos (show x.toNat < z.toNat by omega)]
              · by_cases h4 : y.toNat < x.toNat
                · rw [if_neg h1, if_pos h4] at hab
                  simp at hab
                · rw [if_pos (show x.toNat < z.toNat by omega)]
              · by_cases h4 : y.toNat < x.toNat
                · rw [if_neg h1, if_pos h4] at hab
                  simp at hab
                · by_cases h3 : z.toNat < y.toNat
                  · rw [if_neg h2, if_pos h3] at hbc
                    simp at hbc
                  · rw [if_neg h1, if_neg h4] at hab
                    rw [if_neg h2, if_neg h3] at hbc
                    rw [if_neg (show ¬x.toNat < z.toNat by omega),
                      if_neg (show ¬z.toNat < x.toNat by omega)]
                    exact ih ys zs hab hbc

lemma charsLe_antisymm :
    ∀ a b : List Char, charsLe a b = true → charsLe b a = true → a = b := by
  intro a
  induction a with
  | nil =>
      intro b _ hba
      cases b with
      | nil => rfl
      | cons y ys => simp [charsLe] at hba
  | cons x xs ih =>
      intro b hab hba
      cases b with
      | nil => simp [charsLe] at hab
      | cons y ys =>
          simp only [charsLe] at hab hba
          by_cases h1 : x.toNat < y.toNat
          · rw [if_neg (show ¬y.toNat < x.toNat by omega), if_pos h1] at hba
            simp at hba
          · by_cases h2 : y.toNat < x.toNat
            · rw [if_neg h1, if_pos h2] at hab
              simp at hab
            · rw [if_neg h1, if_neg h2] at hab
              rw [if_neg h2, if_neg h1] at hba
              have hxy : x = y := char_eq_of_toNat_eq (by omega)
              subst hxy
              exact congrArg (x :: ·) (ih ys hab hba)

lemma string_eq_of_data_eq {s t : String} (h : s.data = t.data) : s = t := by
  cases s
  cases t
  exact congrArg String.mk h

instance pyStrLeTotal : IsTotal String (fun s t => pyStrLe s t = true) :=
  ⟨fun s t => charsLe_total s.data t.data⟩

instance pyStrLeTrans : IsTrans String (fun s t => pyStrLe s t = true) :=
  ⟨fun s t u => charsLe_trans s.data t.data u.data⟩

instance pyStrLeAntisymm : IsAntisymm String (fun s t => pyStrLe s t = true) :=
  ⟨fun s t hst hts => string_eq_of_data_eq (charsLe_antisymm s.data t.data hst hts)⟩

/-! ## Lemmas about `firstUniques` and `distinctSorted` -/

lemma firstUniquesAux_mem [DecidableEq α] :
    ∀ (l : List α) (seen : List α) (x : α),
      x ∈ firstUniquesAux seen l ↔ x ∈ l ∧ x ∉ seen := by
  intro l
  induction l with
  | nil => intro seen x; simp [firstUniquesAux]
  | cons a l ih =>
      intro seen x
      by_cases ha : a ∈ seen
      · rw [firstUniquesAux, if_pos ha, ih]
        constructor
        · rintro ⟨hx, hs⟩
          exact ⟨List.mem_cons_of_mem a hx, hs⟩
        · rintro ⟨hx, hs⟩
          rcases List.mem_cons.mp hx with rfl | hx'
          · exact absurd ha hs
          · exact ⟨hx', hs⟩
      · rw [firstUniquesAux, if_neg ha]
        constructor
        · intro hmem
          rcases List.mem_cons.mp hmem with rfl | hmem'
          · exact ⟨List.mem_cons_self x l, ha⟩
          · rcases (ih (a :: seen) x).mp hmem' with ⟨hx, hs⟩
            refine ⟨List.mem_cons_of_mem a hx, ?_⟩
            intro hxs
            exact hs (List.mem_cons_of_mem a hxs)
        · rintro ⟨hx, hs⟩
          rcases List.mem_cons.mp hx with rfl | hx'
          · exact List.mem_cons_self x _
          · by_cases hxa : x = a
            · subst hxa
              exact List.mem_cons_self x _
            · refine List.mem_cons_of_mem a ((ih (a :: seen) x).mpr ⟨hx', ?_⟩)
              intro hmem
              rcases List.mem_cons.mp hmem with h | h
              · exact hxa h
              · exact hs h

lemma firstUniquesAux_nodup [DecidableEq α] :
    ∀ (l : List α) (seen : List α), (firstUniquesAux seen l).Nodup := by
  intro l
  induction l with
  | nil => intro seen; simp [firstUniquesAux]
  | cons a l ih =>
      intro seen
      by_cases ha : a ∈ seen
      · simpa [firstUniquesAux, if_pos ha] using ih seen
      · rw [firstUniquesAux, if_neg ha]
        refine List.nodup_cons.mpr ⟨?_, ih (a :: seen)⟩
        rw [firstUniquesAux_mem]
        intro h
        exact h.2 (List.mem_cons_self a seen)

lemma firstUniques_mem [DecidableEq α] (l : List α) (x : α) :
    x ∈ firstUniques l ↔ x ∈ l := by
  simp [firstUniques, firstUniquesAux_mem]

lemma firstUniques_nodup [DecidableEq α] (l : List α) : (firstUniques l).Nodup :=
  firstUniquesAux_nodup l []

lemma distinctSorted_mem (l : List String) (s : String) :
    s ∈ distinctSorted l ↔ s ∈ l := by
  unfold distinctSorted
  rw [(List.perm_insertionSort _ _).mem_iff]
  exact firstUniques_mem l s

lemma distinctSorted_nodup (l : List String) : (distinctSorted l).Nodup := by
  unfold distinctSorted
  exact (List.perm_insertionSort _ _).symm.nodup (firstUniques_nodup l)

lemma distinctSorted_sorted (l : List String) :
    List.Sorted (fun s t => pyStrLe s t = true) (distinctSorted l) :=
  List.sorted_insertionSort _ _

lemma distinctSorted_eq_of_mem_iff {l₁ l₂ : List String}
    (h : ∀ s, s ∈ l₁ ↔ s ∈ l₂) : distinctSorted l₁ = distinctSorted l₂ := by
  refine List.eq_of_perm_of_sorted ?_ (distinctSorted_sorted l₁) (distinctSorted_sorted l₂)
  refine (List.perm_ext_iff_of_nodup (distinctSorted_nodup l₁) (distinctSorted_nodup l₂)).mpr ?_
  intro s
  rw [distinctSorted_mem, distinctSorted_mem]
  exact h s

/-! ## Lemmas about `idxmin` -/

lemma withIdx_mem :
    ∀ (l : List DVal) (n i : ℕ) (d : DVal),
      (i, d) ∈ withIdx n l ↔ ∃ k, i = n + k ∧ l[k]? = some d := by
  intro l
  induction l with
  | nil => intro n i d; simp [withIdx]
  | cons x rest ih =>
      intro n i d
      rw [withIdx, List.mem_cons]
      constructor
      · rintro (h | h)
        · rw [Prod.mk.injEq] at h
          obtain ⟨rfl, rfl⟩ := h
          exact ⟨0, by omega, by simp⟩
        · obtain ⟨k, rfl, hk⟩ := (ih (n + 1) i d).mp h
          exact ⟨k + 1, by omega, by simpa using hk⟩
      · rintro ⟨k, rfl, hk⟩
        cases k with
        | zero =>
            rw [List.getElem?_cons_zero] at hk
            injection hk with hk
            subst hk
            exact Or.inl (by simp)
        | succ k =>
            rw [List.getElem?_cons_succ] at hk
            exact Or.inr ((ih (n + 1) (n + (k + 1)) d).mpr ⟨k, by omega, hk⟩)

lemma dvalPairs_mem (l : List DVal) (i : ℕ) (q : ℚ) :
    (i, q) ∈ dvalPairs l ↔ l[i]? = some (DVal.sqrtOf q) := by
  unfold dvalPairs
  rw [List.mem_filterMap]
  constructor
  · rintro ⟨⟨j, d⟩, hmem, hf⟩
    cases d with
    | nan => simp at hf
    | sqrtOf r =>
        simp only [Option.some.injEq, Prod.mk.injEq] at hf
        obtain ⟨rfl, rfl⟩ := hf
        obtain ⟨k, hk0, hk⟩ := (withIdx_mem l 0 j _).mp hmem
        have : j = k := by omega
        exact this ▸ hk
  · intro h
    exact ⟨(i, DVal.sqrtOf q), (withIdx_mem l 0 i _).mpr ⟨i, by omega, h⟩, rfl⟩

lemma dvalPairs_eq_nil_iff (l : List DVal) :
    dvalPairs l = [] ↔ ∀ x ∈ l, x = DVal.nan := by
  unfold dvalPairs
  rw [List.filterMap_eq_nil_iff]
  constructor
  · intro h x hx
    obtain ⟨k, hk⟩ := List.getElem?_of_mem hx
    have hmem : (k, x) ∈ withIdx 0 l := (withIdx_mem l 0 k x).mpr ⟨k, by omega, hk⟩
    have hnone := h _ hmem
    cases x with
    | nan => rfl
    | sqrtOf q => simp at hnone
  · rintro h ⟨j, d⟩ hp
    obtain ⟨k, hk0, hk⟩ := (withIdx_mem l 0 j d).mp hp
    have hd : d ∈ l := List.getElem?_mem hk
    have := h d hd
    subst this
    rfl

lemma idxmin_eq_none_iff (l : List DVal) :
    idxmin l = none ↔ ∀ x ∈ l, x = DVal.nan := by
  unfold idxmin
  rw [Option.map_eq_none', List.argmin_eq_none, dvalPairs_eq_nil_iff]

lemma idxmin_spec (l : List DVal) (i : ℕ) (h : idxmin l = some i) :
    ∃ q, l[i]? = some (DVal.sqrtOf q) ∧
      ∀ (j : ℕ) (r : ℚ), l[j]? = some (DVal.sqrtOf r) → q ≤ r := by
  unfold idxmin at h
  rcases Option.map_eq_some'.mp h with ⟨⟨i', q⟩, hargmin, hfst⟩
  simp only at hfst
  subst hfst
  refine ⟨q, (dvalPairs_mem l i' q).mp (List.argmin_mem (Option.mem_def.mpr hargmin)), ?_⟩
  intro j r hjr
  have hmem : (j, r) ∈ dvalPairs l := (dvalPairs_mem l j r).mpr hjr
  exact List.le_of_mem_argmin hmem (Option.mem_def.mpr hargmin)

lemma siteDistances_getElem? (geo : List Place) (names : List String)
    (uLat uLon : ℚ) (i : ℕ) :
    (siteDistances geo names uLat uLon)[i]? =
      (names[i]?).map (fun s => siteDistance uLat uLon (geocode geo s (some "DE"))) := by
  unfold siteDistances
  exact List.getElem?_map _ _ _

/-- On any input with at least one resolvable site, the nearest-site core
returns the name at the `idxmin` position, that name resolves, and its
squared planar distance to the user is minimal among all resolved
names. -/
lemma findClosestNames_resolvable (geo : List Place) (names : List String)
    (uLat uLon : ℚ)
    (h : ∃ nm ∈ names, geocode geo nm (some "DE") ≠ none) :
    ∃ s c, findClosestNames geo names uLat uLon = PyRes.ok s ∧
      s ∈ names ∧ geocode geo s (some "DE") = some c ∧
      ∀ t d, t ∈ names → geocode geo t (some "DE") = some d →
        pySq (c.1 - uLat) + pySq (c.2 - uLon) ≤
          pySq (d.1 - uLat) + pySq (d.2 - uLon) := by
  obtain ⟨nm, hnm, hres⟩ := h
  have hnotall : ¬ ∀ x ∈ siteDistances geo names uLat uLon, x = DVal.nan := by
    intro hall
    obtain ⟨c, hc⟩ := Option.ne_none_iff_exists'.mp hres
    obtain ⟨k, hk⟩ := List.getElem?_of_mem hnm
    have hdk : (siteDistances geo names uLat uLon)[k]? =
        some (DVal.sqrtOf (pySq (c.1 - uLat) + pySq (c.2 - uLon))) := by
      rw [siteDistances_getElem?, hk]
      simp [siteDistance, hc]
    have hmem := List.getElem?_mem hdk
    exact absurd (hall _ hmem) (by simp)
  cases hidx : idxmin (siteDistances geo names uLat uLon) with
  | none => exact absurd ((idxmin_eq_none_iff _).mp hidx) hnotall
  | some i =>
      obtain ⟨q, hqi, hmin⟩ := idxmin_spec _ i hidx
      have hilen : i < names.length := by
        obtain ⟨hlt, -⟩ := List.getElem?_eq_some_iff.mp hqi
        simpa [siteDistances] using hlt
      have hsi : names[i]? = some names[i] := List.getElem?_eq_getElem hilen
      have hdi : (siteDistances geo names uLat uLon)[i]? =
          some (siteDistance uLat uLon (geocode geo names[i] (some "DE"))) := by
        rw [siteDistances_getElem?, hsi]
        rfl
      rw [hdi] at hqi
      injection hqi with hqi
      cases hgeo : geocode geo names[i] (some "DE") with
      | none => rw [hgeo] at hqi; simp [siteDistance] at hqi
      | some c =>
          rw [hgeo] at hqi
          simp only [siteDistance] at hqi
          injection hqi with hqi
          refine ⟨names[i], c, ?_, List.getElem_mem hilen, hgeo, ?_⟩
          · simp only [findClosestNames, hidx, hsi]
          · intro t d ht hd
            obtain ⟨j, hj⟩ := List.getElem?_of_mem ht
            have hdj : (siteDistances geo names uLat uLon)[j]? =
                some (DVal.sqrtOf (pySq (d.1 - uLat) + pySq (d.2 - uLon))) := by
              rw [siteDistances_getElem?, hj]
              simp [siteDistance, hd]
            have := hmin j _ hdj
            rw [hqi]
            exact this

/-! ## Demonstration fixture: a two-city German GeoNames table -/

/-- A tiny concrete GeoNames table used by the witnesses. -/
def demoGeo : List Place :=
  [{ name := "Berlin", asciiname := "Berlin", alternatenames := some "berlino",
     latitude := 52, longitude := 13, country_code := "DE", population := 3400000 },
   { name := "München", asciiname := "Munich", alternatenames := some "muenchen,munich",
     latitude := 48, longitude := 11, country_code := "DE", population := 1300000 }]

/-! ## Claims about `find_closest_klaerwerk` -/

/-- C2 counterexample.  The claim asserts that an unresolvable site is
excluded *before* any distance is computed.  In the code there is no such
filter: the distance column carries one entry per distinct site, and the
unresolvable site "Nirgendwo" receives a computed sentinel distance
(`NaN`, from arithmetic on its `NaN` coordinates) rather than being
excluded from the distance computation. -/
theorem find_closest_unresolved_distance_cex :
    geocode demoGeo "Nirgendwo" (some "DE") = none ∧
    (siteDistances demoGeo (distinctSorted ["Nirgendwo", "Berlin"]) 50 10).length = 2 ∧
    (siteDistances demoGeo (distinctSorted ["Nirgendwo", "Berlin"]) 50 10)[1]? =
      some DVal.nan :=
  ⟨by decide, by decide, by decide⟩

/-- C2 (amended).  Unresolved sites are not filtered out before the
distance computation; they flow through it with a `NaN` sentinel
distance.  The `idxmin` step skips `NaN`, so an unresolved site is never
the returned result, and one unresolvable site does not abort the
operation as long as at least one site resolves. -/
theorem find_closest_unresolved_never_wins (geo : List Place)
    (col : List (Option String)) (uLat uLon : ℚ) :
    (∀ s, find_closest_klaerwerk geo col uLat uLon = PyRes.ok s →
        geocode geo s (some "DE") ≠ none) ∧
    ((∃ nm ∈ distinctSorted (col.filterMap id), geocode geo nm (some "DE") ≠ none) →
      ∃ s, find_closest_klaerwerk geo col uLat uLon = PyRes.ok s) := by
  constructor
  · intro s h
    simp only [find_closest_klaerwerk, findClosestNames] at h
    cases hidx : idxmin (siteDistances geo (distinctSorted (col.filterMap id)) uLat uLon) with
    | none =>
        simp only [hidx] at h
        exact PyRes.noConfusion h
    | some i =>
        simp only [hidx] at h
        obtain ⟨q, hqi, -⟩ := idxmin_spec _ i hidx
        cases hsi : (distinctSorted (col.filterMap id))[i]? with
        | none =>
            simp only [hsi] at h
            exact PyRes.noConfusion h
        | some s' =>
            simp only [hsi] at h
            have hs : s' = s := by simpa using h
            subst hs
            rw [siteDistances_getElem?, hsi] at hqi
            simp only [Option.map_some'] at hqi
            injection hqi with hqi
            intro hnone
            rw [hnone] at hqi
            exact DVal.noConfusion hqi
  · intro h
    obtain ⟨s, c, hok, -, -, -⟩ := findClosestNames_resolvable geo _ uLat uLon h
    exact ⟨s, hok⟩

/-- Concrete instance of the amended C2: with one unresolvable and one
resolvable site present, the call still succeeds and whatever it returns
resolves. -/
theorem find_closest_unresolved_never_wins_witness :
    (∃ nm ∈ distinctSorted (([some "Nirgendwo", some "Berlin"] :
        List (Option String)).filterMap id),
      geocode demoGeo nm (some "DE") ≠ none) ∧
    (∃ s, find_closest_klaerwerk demoGeo [some "Nirgendwo", some "Berlin"] 50 10 =
      PyRes.ok s) := by
  refine ⟨by decide, ?_⟩
  exact (find_closest_unresolved_never_wins demoGeo
    [some "Nirgendwo", some "Berlin"] 50 10).2 (by decide)

/-- C3 counterexample.  With zero resolvable sites the source does not
return a `NotFound` value: `idxmin` over an all-`NaN` distance column
(and the subsequent `.loc`) raises, so the call fails with an exception. -/
theorem find_closest_zero_resolved_raises_cex :
    find_closest_klaerwerk demoGeo [some "Nirgendwo"] 50 10 =
      PyRes.exn "ValueError: idxmin over empty or all-NaN distances" := by
  decide

/-- C3 (amended).  If at least one site resolves, the returned site is one
whose resolved coordinate has minimum planar Euclidean distance to the
user among all resolved sites (comparing squared distances, equivalent
under the monotone square root of the source).  If zero sites resolve,
the call raises instead of returning a `NotFound` value. -/
theorem find_closest_min_distance (geo : List Place)
    (col : List (Option String)) (uLat uLon : ℚ) :
    ((∃ nm ∈ distinctSorted (col.filterMap id), geocode geo nm (some "DE") ≠ none) →
      ∃ s c, find_closest_klaerwerk geo col uLat uLon = PyRes.ok s ∧
        s ∈ distinctSorted (col.filterMap id) ∧
        geocode geo s (some "DE") = some c ∧
        ∀ t d, t ∈ distinctSorted (col.filterMap id) →
          geocode geo t (some "DE") = some d →
          pySq (c.1 - uLat) + pySq (c.2 - uLon) ≤
            pySq (d.1 - uLat) + pySq (d.2 - uLon)) ∧
    ((∀ nm ∈ distinctSorted (col.filterMap id), geocode geo nm (some "DE") = none) →
      ∃ e, find_closest_klaerwerk geo col uLat uLon = PyRes.exn e) := by
  constructor
  · intro h
    obtain ⟨s, c, hok, hmem, hgeo, hmin⟩ := findClosestNames_resolvable geo _ uLat uLon h
    exact ⟨s, c, hok, hmem, hgeo, hmin⟩
  · intro h
    have hall : ∀ x ∈ siteDistances geo (distinctSorted (col.filterMap id)) uLat uLon,
        x = DVal.nan := by
      intro x hx
      obtain ⟨nm, hnm, rfl⟩ := List.mem_map.mp hx
      rw [h nm hnm]
      rfl
    have hidx := (idxmin_eq_none_iff _).mpr hall
    exact ⟨"ValueError: idxmin over empty or all-NaN distances",
      by simp only [find_closest_klaerwerk, findClosestNames, hidx]⟩

/-- Concrete instances of the amended C3: a mixed column yields the
minimum-distance site; an all-unresolvable column raises. -/
theorem find_closest_min_distance_witness :
    (∃ s c, find_closest_klaerwerk demoGeo [some "München", some "Berlin"] 49 11 =
        PyRes.ok s ∧
      s ∈ distinctSorted (([some "München", some "Berlin"] :
          List (Option String)).filterMap id) ∧
      geocode demoGeo s (some "DE") = some c ∧
      ∀ t d, t ∈ distinctSorted (([some "München", some "Berlin"] :
          List (Option String)).filterMap id) →
        geocode demoGeo t (some "DE") = some d →
        pySq (c.1 - 49) + pySq (c.2 - 11) ≤ pySq (d.1 - 49) + pySq (d.2 - 11)) ∧
    (∃ e, find_closest_klaerwerk demoGeo [some "Weithin"] 49 11 = PyRes.exn e) := by
  constructor
  · exact (find_closest_min_distance demoGeo [some "München", some "Berlin"] 49 11).1
      (by decide)
  · exact (find_closest_min_distance demoGeo [some "Weithin"] 49 11).2 (by decide)

/-- C9.  `find_closest_klaerwerk` is deterministic: two runs over the same
sites column, the same user coordinate and the same GeoNames table return
the identical result. -/
theorem find_closest_deterministic (geo geo' : List Place)
    (col col' : List (Option String)) (uLat uLon uLat' uLon' : ℚ)
    (hg : geo = geo') (hc : col = col') (ha : uLat = uLat') (hb : uLon = uLon') :
    find_closest_klaerwerk geo col uLat uLon =
      find_closest_klaerwerk geo' col' uLat' uLon' := by
  subst hg
  subst hc
  subst ha
  subst hb
  rfl

/-- Concrete instance of C9. -/
theorem find_closest_deterministic_witness :
    find_closest_klaerwerk demoGeo [some "Berlin"] 50 10 =
      find_closest_klaerwerk demoGeo [some "Berlin"] 50 10 :=
  find_closest_deterministic demoGeo demoGeo [some "Berlin"] [some "Berlin"]
    50 10 50 10 rfl rfl rfl rfl

/-- C10.  The result of `find_closest_klaerwerk` depends only on the set of
distinct non-null site names (the `standort` column is deduplicated and
sorted before use) and on the user coordinate: two columns with the same
non-null names, in any order and with any duplication, give the identical
result. -/
theorem find_closest_depends_only_on_name_set (geo : List Place)
    (col₁ col₂ : List (Option String)) (uLat uLon : ℚ)
    (h : ∀ s : String, s ∈ col₁.filterMap id ↔ s ∈ col₂.filterMap id) :
    find_closest_klaerwerk geo col₁ uLat uLon =
      find_closest_klaerwerk geo col₂ uLat uLon := by
  unfold find_closest_klaerwerk
  rw [distinctSorted_eq_of_mem_iff h]

/-- Concrete instance of C10: reordering and duplicating rows (and a null
cell) does not change the result. -/
theorem find_closest_depends_only_on_name_set_witness :
    (∀ s : String,
      s ∈ ([some "Berlin", none, some "München", some "Berlin"] :
          List (Option String)).filterMap id ↔
      s ∈ ([some "München", some "Berlin"] : List (Option String)).filterMap id) ∧
    find_closest_klaerwerk demoGeo [some "Berlin", none, some "München", some "Berlin"]
        49 11 =
      find_closest_klaerwerk demoGeo [some "München", some "Berlin"] 49 11 := by
  have hp : ∀ s : String,
      s ∈ ([some "Berlin", none, some "München", some "Berlin"] :
          List (Option String)).filterMap id ↔
      s ∈ ([some "München", some "Berlin"] : List (Option String)).filterMap id := by
    intro s
    constructor
    · intro hs
      simp only [List.filterMap_cons, List.filterMap_nil, id, List.mem_cons,
        List.not_mem_nil] at hs ⊢
      tauto
    · intro hs
      simp only [List.filterMap_cons, List.filterMap_nil, id, List.mem_cons,
        List.not_mem_nil] at hs ⊢
      tauto
  exact ⟨hp, find_closest_depends_only_on_name_set demoGeo _ _ 49 11 hp⟩

/-! ## Lemmas about the forecast pipeline -/

lemma fitAndForecast_short (fitFn : List ℚ → ℕ → ℚ) (m hz : ℕ) (rows : List FRow)
    (col : String) (h : rows.length < 2 * m) :
    ∃ e, fitAndForecast fitFn m hz rows col = PyRes.exn e := by
  unfold fitAndForecast
  by_cases hany :
      (rows.map (fun r => getCell r col)).any (fun c => !(isNumCell c)) = true
  · exact ⟨FitErr.missingData, by simp only [hany, if_true]⟩
  · have hlen :
        ((rows.map (fun r => getCell r col)).filterMap (fun c =>
          match c with
          | Cell.num q => some q
          | _ => none)).length < 2 * m := by
      calc ((rows.map (fun r => getCell r col)).filterMap (fun c =>
              match c with
              | Cell.num q => some q
              | _ => none)).length
          ≤ (rows.map (fun r => getCell r col)).length :=
            List.length_filterMap_le _ _
        _ = rows.length := List.length_map _ _
        _ < 2 * m := h
    refine ⟨FitErr.insufficientHistory, ?_⟩
    rw [Bool.not_eq_true] at hany
    simp only [hany, Bool.false_eq_true, if_false, hlen, if_true]

lemma fitAndForecast_ok_shape (fitFn : List ℚ → ℕ → ℚ) (m hz : ℕ) (rows : List FRow)
    (col : String) (pts : List (ℕ × ℚ))
    (h : fitAndForecast fitFn m hz rows col = PyRes.ok pts) :
    ∃ vals, pts = (List.range hz).map (fun k =>
      ((((rows.getLast?).map FRow.date).getD 0) + 7 * (k + 1), fitFn vals (k + 1))) := by
  unfold fitAndForecast at h
  by_cases hany :
      (rows.map (fun r => getCell r col)).any (fun c => !(isNumCell c)) = true
  · simp only [hany, if_true] at h
    exact PyRes.noConfusion h
  · rw [Bool.not_eq_true] at hany
    simp only [hany, Bool.false_eq_true, if_false] at h
    by_cases hlen :
        ((rows.map (fun r => getCell r col)).filterMap (fun c =>
          match c with
          | Cell.num q => some q
          | _ => none)).length < 2 * m
    · simp only [hlen, if_true] at h
      exact PyRes.noConfusion h
    · simp only [hlen, if_false] at h
      injection h with h
      exact ⟨_, h.symm⟩

lemma groupForecastDf_ok (fitFn : List ℚ → ℕ → ℚ) (m hz : ℕ) (facet col : String)
    (df : List FRow) (v : Cell) (fr : List FRow)
    (h : groupForecastDf fitFn m hz facet col df v = PyRes.ok fr) :
    ∃ pts, fitAndForecast fitFn m hz (asfreqWFRI (groupOf df facet v)) col = PyRes.ok pts ∧
      fr = pts.map (fun p =>
        { date := p.1, cells := [(col ++ "_forecast", Cell.num p.2), (facet, v)] }) := by
  simp only [groupForecastDf] at h
  cases hfit : fitAndForecast fitFn m hz (asfreqWFRI (groupOf df facet v)) col with
  | exn e =>
      rw [hfit] at h
      exact PyRes.noConfusion h
  | ok pts =>
      rw [hfit] at h
      injection h with h
      exact ⟨pts, rfl, h.symm⟩

lemma loopIll_ok_group (fitFn : List ℚ → ℕ → ℚ) (m hz : ℕ) (facet col : String)
    (df : List FRow) :
    ∀ (vs : List Cell) (rest : List FRow),
      loopIll fitFn m hz facet col df vs = PyRes.ok rest →
      ∀ v ∈ vs, ∃ fr, groupForecastDf fitFn m hz facet col df v = PyRes.ok fr := by
  intro vs
  induction vs with
  | nil => intro rest _ v hv; cases hv
  | cons w vs ih =>
      intro rest h v hv
      rw [loopIll] at h
      cases hgd : groupForecastDf fitFn m hz facet col df w with
      | exn e =>
          rw [hgd] at h
          exact PyRes.noConfusion h
      | ok fr =>
          rw [hgd] at h
          cases hrec : loopIll fitFn m hz facet col df vs with
          | exn e =>
              rw [hrec] at h
              exact PyRes.noConfusion h
          | ok rest' =>
              rcases List.mem_cons.mp hv with rfl | hv'
              · exact ⟨fr, hgd⟩
              · exact ih rest' hrec v hv'

lemma loopCols_ok_col (fitFn : List ℚ → ℕ → ℚ) (m hz : ℕ) (facet : String)
    (df : List FRow) (uniq : List Cell) :
    ∀ (cs : List String) (rest : List FRow),
      loopCols fitFn m hz facet df uniq cs = PyRes.ok rest →
      ∀ c ∈ cs, ∃ fr, loopIll fitFn m hz facet c df uniq = PyRes.ok fr := by
  intro cs
  induction cs with
  | nil => intro rest _ c hc; cases hc
  | cons c0 cs ih =>
      intro rest h c hc
      rw [loopCols] at h
      cases hli : loopIll fitFn m hz facet c0 df uniq with
      | exn e =>
          rw [hli] at h
          exact PyRes.noConfusion h
      | ok fr =>
          rw [hli] at h
          cases hrec : loopCols fitFn m hz facet df uniq cs with
          | exn e =>
              rw [hrec] at h
              exact PyRes.noConfusion h
          | ok rest' =>
              rcases List.mem_cons.mp hc with rfl | hc'
              · exact ⟨fr, hli⟩
              · exact ih rest' hrec c hc'

lemma add_forecasts_ok_concat (fitFn : List ℚ → ℕ → ℚ) (df : List FRow)
    (cols : List String) (facet : String) (hz m : ℕ) (out : List FRow)
    (h : add_forecasts fitFn df cols facet hz m = PyRes.ok out) :
    ∃ fdfs, loopCols fitFn m hz facet df
        (firstUniques (df.map (fun r => getCell r facet))) cols = PyRes.ok fdfs ∧
      out = df ++ fdfs := by
  unfold add_forecasts at h
  cases hlc : loopCols fitFn m hz facet df
      (firstUniques (df.map (fun r => getCell r facet))) cols with
  | exn e =>
      rw [hlc] at h
      exact PyRes.noConfusion h
  | ok fdfs =>
      rw [hlc] at h
      injection h with h
      exact ⟨fdfs, rfl, h.symm⟩

/-- C1 counterexample.  A single group of 3 observations with
`periods = 2` (so `2 * periods = 4 > 3`): the model fit fails and — since
`add_forecasts` installs no exception handler — the whole call raises
instead of returning the historical rows with zero forecast rows. -/
theorem add_forecasts_short_group_raises_cex :
    add_forecasts (fun _ _ => 0)
      [{ date := 8, cells := [("g", Cell.str "A"), ("y", Cell.num 1)] },
       { date := 15, cells := [("g", Cell.str "A"), ("y", Cell.num 2)] },
       { date := 22, cells := [("g", Cell.str "A"), ("y", Cell.num 3)] }]
      ["y"] "g" 1 2 = PyRes.exn FitErr.insufficientHistory := by
  decide

/-- C1 (amended).  When the input contains a group whose weekly-resampled
series has fewer than `2 * periods` observations, the fit error
propagates: the whole `add_forecasts` call raises, returning no table at
all — it does not skip only the deficient group. -/
theorem add_forecasts_short_group_errors (fitFn : List ℚ → ℕ → ℚ) (df : List FRow)
    (cols : List String) (facet : String) (hz m : ℕ) (col : String) (v : Cell)
    (hcol : col ∈ cols)
    (hv : v ∈ firstUniques (df.map (fun r => getCell r facet)))
    (hshort : (asfreqWFRI (groupOf df facet v)).length < 2 * m) :
    ∃ e, add_forecasts fitFn df cols facet hz m = PyRes.exn e := by
  cases hres : add_forecasts fitFn df cols facet hz m with
  | exn e => exact ⟨e, rfl⟩
  | ok out =>
      exfalso
      obtain ⟨fdfs, hlc, -⟩ := add_forecasts_ok_concat fitFn df cols facet hz m out hres
      obtain ⟨fr, hli⟩ := loopCols_ok_col fitFn m hz facet df _ cols fdfs hlc col hcol
      obtain ⟨gfr, hgd⟩ := loopIll_ok_group fitFn m hz facet col df _ fr hli v hv
      obtain ⟨pts, hfit, -⟩ := groupForecastDf_ok fitFn m hz facet col df v gfr hgd
      obtain ⟨e, he⟩ :=
        fitAndForecast_short fitFn m hz (asfreqWFRI (groupOf df facet v)) col hshort
      rw [he] at hfit
      exact PyRes.noConfusion hfit

/-- Concrete instance of the amended C1: the deficient-group hypothesis
holds for the 3-row group with `periods = 2`, and the call errors. -/
theorem add_forecasts_short_group_errors_witness :
    (asfreqWFRI (groupOf
      [{ date := 8, cells := [("g", Cell.str "A"), ("y", Cell.num 1)] },
       { date := 15, cells := [("g", Cell.str "A"), ("y", Cell.num 2)] },
       { date := 22, cells := [("g", Cell.str "A"), ("y", Cell.num 3)] }]
      "g" (Cell.str "A"))).length < 2 * 2 ∧
    ∃ e, add_forecasts (fun _ _ => 0)
      [{ date := 8, cells := [("g", Cell.str "A"), ("y", Cell.num 1)] },
       { date := 15, cells := [("g", Cell.str "A"), ("y", Cell.num 2)] },
       { date := 22, cells := [("g", Cell.str "A"), ("y", Cell.num 3)] }]
      ["y"] "g" 1 2 = PyRes.exn e := by
  refine ⟨by decide, ?_⟩
  exact add_forecasts_short_group_errors (fun _ _ => 0) _ ["y"] "g" 1 2 "y"
    (Cell.str "A") (by decide) (by decide) (by decide)

/-! ## Lemmas about the weekly reindexing -/

lemma mem_fridaysFrom (first last d : ℕ) :
    d ∈ fridaysFrom first last ↔ first ≤ d ∧ d ≤ last ∧ d % 7 = 1 := by
  simp only [fridaysFrom, isFri, List.mem_filter, List.mem_range, Nat.lt_succ_iff,
    Bool.and_eq_true, decide_eq_true_eq, beq_iff_eq]
  tauto

lemma find?_date_of_sorted :
    ∀ (g : List FRow) (r : FRow),
      g.Pairwise (fun a b => a.date < b.date) → r ∈ g →
      g.find? (fun x => x.date == r.date) = some r := by
  intro g
  induction g with
  | nil => intro r _ hr; cases hr
  | cons a t ih =>
      intro r hsort hr
      rcases List.mem_cons.mp hr with rfl | hr'
      · rw [List.find?_cons_of_pos _ (by simp)]
      · have hlt : a.date < r.date := (List.pairwise_cons.mp hsort).1 r hr'
        rw [List.find?_cons_of_neg _ (by simp; omega)]
        exact ih r (List.pairwise_cons.mp hsort).2 hr'

lemma sorted_head_le (r0 : FRow) (rest : List FRow)
    (hsort : (r0 :: rest).Pairwise (fun a b => a.date < b.date)) :
    ∀ r ∈ r0 :: rest, r0.date ≤ r.date := by
  intro r hr
  rcases List.mem_cons.mp hr with rfl | hr'
  · exact Nat.le_refl _
  · exact Nat.le_of_lt ((List.pairwise_cons.mp hsort).1 r hr')

lemma sorted_le_getLast :
    ∀ (g : List FRow) (hne : g ≠ []),
      g.Pairwise (fun a b => a.date < b.date) →
      ∀ r ∈ g, r.date ≤ (g.getLast hne).date := by
  intro g
  induction g with
  | nil => intro hne; exact absurd rfl hne
  | cons a t ih =>
      intro hne hsort r hr
      cases t with
      | nil =>
          rcases List.mem_cons.mp hr with rfl | hr'
          · exact Nat.le_refl _
          · cases hr'
      | cons b t' =>
          rw [List.getLast_cons (List.cons_ne_nil b t')]
          rcases List.mem_cons.mp hr with rfl | hr'
          · exact Nat.le_of_lt ((List.pairwise_cons.mp hsort).1 _
              (List.getLast_mem (List.cons_ne_nil b t')))
          · exact ih (List.cons_ne_nil b t') (List.pairwise_cons.mp hsort).2 r hr'

/-- Weekly reindexing over a strictly increasing, Friday-aligned group
keeps every observation row and introduces only all-missing gap rows. -/
lemma asfreq_preserves (g : List FRow)
    (hsort : g.Pairwise (fun a b => a.date < b.date))
    (hfri : ∀ r ∈ g, r.date % 7 = 1) :
    (∀ r ∈ g, r ∈ asfreqWFRI g) ∧
    (∀ x ∈ asfreqWFRI g, x ∈ g ∨ x.cells = []) := by
  cases g with
  | nil => simp [asfreqWFRI]
  | cons r0 rest =>
      constructor
      · intro r hr
        show r ∈ (fridaysFrom r0.date
          (((r0 :: rest).getLast (List.cons_ne_nil r0 rest)).date)).map _
        refine List.mem_map.mpr ⟨r.date, ?_, ?_⟩
        · refine (mem_fridaysFrom _ _ _).mpr
            ⟨sorted_head_le r0 rest hsort r hr,
             sorted_le_getLast (r0 :: rest) (List.cons_ne_nil r0 rest) hsort r hr,
             hfri r hr⟩
        · rw [find?_date_of_sorted (r0 :: rest) r hsort hr]
      · intro x hx
        obtain ⟨d, -, hxeq⟩ := List.mem_map.mp hx
        cases hfind : (r0 :: rest).find? (fun r => r.date == d) with
        | some rr =>
            rw [hfind] at hxeq
            exact Or.inl (hxeq ▸ List.mem_of_find?_eq_some hfind)
        | none =>
            rw [hfind] at hxeq
            exact Or.inr (hxeq ▸ rfl)

/-- C5 counterexample.  A group containing an observation whose timestamp
is not on the weekly-Friday grid (day 2, a Saturday): `asfreq('W-FRI')`
silently reindexes that observation away — the reindexed group keeps the
Friday row only. -/
theorem asfreq_drops_misaligned_cex :
    ({ date := 2, cells := [("g", Cell.str "A"), ("y", Cell.num 1)] } : FRow) ∈
      groupOf
        [{ date := 2, cells := [("g", Cell.str "A"), ("y", Cell.num 1)] },
         { date := 8, cells := [("g", Cell.str "A"), ("y", Cell.num 2)] }]
        "g" (Cell.str "A") ∧
    asfreqWFRI (groupOf
        [{ date := 2, cells := [("g", Cell.str "A"), ("y", Cell.num 1)] },
         { date := 8, cells := [("g", Cell.str "A"), ("y", Cell.num 2)] }]
        "g" (Cell.str "A")) =
      [{ date := 8, cells := [("g", Cell.str "A"), ("y", Cell.num 2)] }] ∧
    ({ date := 2, cells := [("g", Cell.str "A"), ("y", Cell.num 1)] } : FRow) ∉
      asfreqWFRI (groupOf
        [{ date := 2, cells := [("g", Cell.str "A"), ("y", Cell.num 1)] },
         { date := 8, cells := [("g", Cell.str "A"), ("y", Cell.num 2)] }]
        "g" (Cell.str "A")) := by
  refine ⟨by decide, by decide, by decide⟩

/-- C5 (amended).  Provided every timestamp of the group extracted by
`add_forecasts` lies on the weekly-Friday grid and the timestamps are
strictly increasing, the `asfreq('W-FRI')` step preserves every original
observation and only adds all-missing gap rows for the weeks without an
observation; an observation with a timestamp off the weekly grid is
silently dropped by the reindexing (see the counterexample). -/
theorem asfreq_preserves_aligned_group (df : List FRow) (facet : String) (v : Cell)
    (hsort : (groupOf df facet v).Pairwise (fun a b => a.date < b.date))
    (hfri : ∀ r ∈ groupOf df facet v, r.date % 7 = 1) :
    (∀ r ∈ groupOf df facet v, r ∈ asfreqWFRI (groupOf df facet v)) ∧
    (∀ x ∈ asfreqWFRI (groupOf df facet v),
      x ∈ groupOf df facet v ∨ x.cells = []) :=
  asfreq_preserves (groupOf df facet v) hsort hfri

/-- Concrete instance of the amended C5: a Friday-aligned group is fully
preserved by the weekly reindexing. -/
theorem asfreq_preserves_aligned_group_witness :
    ((groupOf
        [{ date := 8, cells := [("g", Cell.str "A"), ("y", Cell.num 1)] },
         { date := 22, cells := [("g", Cell.str "A"), ("y", Cell.num 2)] }]
        "g" (Cell.str "A")).Pairwise (fun a b => a.date < b.date)) ∧
    (∀ r ∈ groupOf
        [{ date := 8, cells := [("g", Cell.str "A"), ("y", Cell.num 1)] },
         { date := 22, cells := [("g", Cell.str "A"), ("y", Cell.num 2)] }]
        "g" (Cell.str "A"),
      r ∈ asfreqWFRI (groupOf
        [{ date := 8, cells := [("g", Cell.str "A"), ("y", Cell.num 1)] },
         { date := 22, cells := [("g", Cell.str "A"), ("y", Cell.num 2)] }]
        "g" (Cell.str "A"))) := by
  refine ⟨by decide, ?_⟩
  exact (asfreq_preserves_aligned_group _ "g" (Cell.str "A") (by decide) (by decide)).1

/-! ## Shape of the produced forecast rows -/

lemma lookup_none_of_no_key :
    ∀ (l : List (String × Cell)) (key : String),
      (∀ kv ∈ l, kv.1 ≠ key) → List.lookup key l = none := by
  intro l key
  induction l with
  | nil => intro _; rfl
  | cons kv t ih =>
      intro h
      have hne : key ≠ kv.1 := fun he => h kv (List.mem_cons_self kv t) he.symm
      obtain ⟨k, c⟩ := kv
      simp only at hne
      have hb : (key == k) = false := by simpa using hne
      rw [List.lookup_cons]
      simp only [hb]
      exact ih (fun kv' hkv' => h kv' (List.mem_cons_of_mem _ hkv'))

lemma getCell_na_of_no_key (r : FRow) (key : String)
    (h : ∀ kv ∈ r.cells, kv.1 ≠ key) : getCell r key = Cell.na := by
  unfold getCell
  rw [lookup_none_of_no_key r.cells key h]
  rfl

lemma getCell_frow₁ (d : ℕ) (k1 k2 : String) (c1 c2 : Cell) :
    getCell { date := d, cells := [(k1, c1), (k2, c2)] } k1 = c1 := by
  simp [getCell, List.lookup]

lemma getCell_frow₂ (d : ℕ) (k1 k2 : String) (c1 c2 : Cell) (hne : k2 ≠ k1) :
    getCell { date := d, cells := [(k1, c1), (k2, c2)] } k2 = c2 := by
  have hb : (k2 == k1) = false := by simpa using hne
  have hb2 : (k2 == k2) = true := by simp
  simp only [getCell, List.lookup, hb, hb2]
  rfl

lemma groupForecastDf_rows (fitFn : List ℚ → ℕ → ℚ) (m hz : ℕ) (facet col : String)
    (df : List FRow) (w : Cell) (fr : List FRow)
    (h : groupForecastDf fitFn m hz facet col df w = PyRes.ok fr) :
    ∃ vals, fr = (List.range hz).map (fun k =>
      { date := (((asfreqWFRI (groupOf df facet w)).getLast?).map FRow.date).getD 0
          + 7 * (k + 1),
        cells := [(col ++ "_forecast", Cell.num (fitFn vals (k + 1))), (facet, w)] }) := by
  obtain ⟨pts, hfit, rfl⟩ := groupForecastDf_ok fitFn m hz facet col df w fr h
  obtain ⟨vals, rfl⟩ := fitAndForecast_ok_shape fitFn m hz _ col pts hfit
  refine ⟨vals, ?_⟩
  rw [List.map_map]
  rfl

lemma asfreq_getLast_date (g : List FRow) (hne : g ≠ [])
    (hsort : g.Pairwise (fun a b => a.date < b.date))
    (hfri : ∀ r ∈ g, r.date % 7 = 1) :
    (((asfreqWFRI g).getLast?).map FRow.date).getD 0 = (g.getLast hne).date := by
  cases g with
  | nil => exact absurd rfl hne
  | cons r0 rest =>
      have hlastmem := List.getLast_mem (List.cons_ne_nil r0 rest)
      have hfirstle : r0.date ≤ ((r0 :: rest).getLast (List.cons_ne_nil r0 rest)).date :=
        sorted_head_le r0 rest hsort _ hlastmem
      have hfriL : ((r0 :: rest).getLast (List.cons_ne_nil r0 rest)).date % 7 = 1 :=
        hfri _ hlastmem
      simp only [asfreqWFRI]
      have hdecomp : fridaysFrom r0.date
          ((r0 :: rest).getLast (List.cons_ne_nil r0 rest)).date =
          (List.range ((r0 :: rest).getLast (List.cons_ne_nil r0 rest)).date).filter
            (fun d => decide (r0.date ≤ d) && isFri d) ++
          [((r0 :: rest).getLast (List.cons_ne_nil r0 rest)).date] := by
        unfold fridaysFrom
        rw [List.range_succ, List.filter_append]
        congr 1
        simp [isFri, hfriL, hfirstle]
      rw [hdecomp, List.map_append, List.getLast?_append]
      simp only [List.map_cons, List.map_nil]
      rw [find?_date_of_sorted (r0 :: rest) _ hsort hlastmem]
      rfl

lemma loopCols_single (fitFn : List ℚ → ℕ → ℚ) (m hz : ℕ) (facet col : String)
    (df : List FRow) (uniq : List Cell) (rest : List FRow)
    (h : loopCols fitFn m hz facet df uniq [col] = PyRes.ok rest) :
    loopIll fitFn m hz facet col df uniq = PyRes.ok rest := by
  rw [loopCols] at h
  cases hli : loopIll fitFn m hz facet col df uniq with
  | exn e =>
      rw [hli] at h
      exact PyRes.noConfusion h
  | ok fr =>
      rw [hli] at h
      rw [show loopCols fitFn m hz facet df uniq [] = PyRes.ok [] from rfl] at h
      injection h with h
      rw [List.append_nil] at h
      rw [h]

lemma groupFrame_countP (fitFn : List ℚ → ℕ → ℚ) (m hz : ℕ) (facet col : String)
    (df : List FRow) (w : Cell) (fr : List FRow) (v : Cell)
    (hneq : facet ≠ col ++ "_forecast")
    (h : groupForecastDf fitFn m hz facet col df w = PyRes.ok fr) :
    fr.countP (fun r => decide (getCell r facet = v) &&
      isNumCell (getCell r (col ++ "_forecast"))) = if w = v then hz else 0 := by
  obtain ⟨vals, rfl⟩ := groupForecastDf_rows fitFn m hz facet col df w fr h
  rw [List.countP_map]
  by_cases hwv : w = v
  · subst hwv
    rw [if_pos rfl]
    rw [List.countP_eq_length.mpr, List.length_range]
    intro k _
    simp only [Function.comp_apply]
    rw [getCell_frow₂ _ _ _ _ _ hneq, getCell_frow₁]
    simp [isNumCell]
  · rw [if_neg hwv, List.countP_eq_zero.mpr]
    intro k _
    simp only [Function.comp_apply]
    rw [getCell_frow₂ _ _ _ _ _ hneq, getCell_frow₁]
    simp [isNumCell, hwv]

lemma loopIll_countP (fitFn : List ℚ → ℕ → ℚ) (m hz : ℕ) (facet col : String)
    (df : List FRow) (hneq : facet ≠ col ++ "_forecast") :
    ∀ (vs : List Cell) (rest : List FRow), vs.Nodup →
      loopIll fitFn m hz facet col df vs = PyRes.ok rest →
      ∀ v : Cell, rest.countP (fun r => decide (getCell r facet = v) &&
        isNumCell (getCell r (col ++ "_forecast"))) = if v ∈ vs then hz else 0 := by
  intro vs
  induction vs with
  | nil =>
      intro rest _ h v
      rw [loopIll] at h
      injection h with h
      subst h
      simp
  | cons w vs ih =>
      intro rest hnodup h v
      rw [loopIll] at h
      cases hgd : groupForecastDf fitFn m hz facet col df w with
      | exn e =>
          rw [hgd] at h
          exact PyRes.noConfusion h
      | ok fr =>
          rw [hgd] at h
          cases hrec : loopIll fitFn m hz facet col df vs with
          | exn e =>
              rw [hrec] at h
              exact PyRes.noConfusion h
          | ok rest' =>
              rw [hrec] at h
              injection h with h
              subst h
              rw [List.countP_append,
                groupFrame_countP fitFn m hz facet col df w fr v hneq hgd,
                ih rest' (List.nodup_cons.mp hnodup).2 hrec v]
              by_cases hwv : w = v
              · subst hwv
                have hnv : w ∉ vs := (List.nodup_cons.mp hnodup).1
                simp [hnv]
              · have hne' : ¬ v = w := fun he => hwv he.symm
                simp [List.mem_cons, hne', hwv]

lemma loopIll_mem_shape (fitFn : List ℚ → ℕ → ℚ) (m hz : ℕ) (facet col : String)
    (df : List FRow) :
    ∀ (vs : List Cell) (rest : List FRow),
      loopIll fitFn m hz facet col df vs = PyRes.ok rest →
      ∀ r ∈ rest, ∃ w ∈ vs, ∃ k, k < hz ∧ ∃ q : ℚ,
        r = { date := (((asfreqWFRI (groupOf df facet w)).getLast?).map FRow.date).getD 0
                + 7 * (k + 1),
              cells := [(col ++ "_forecast", Cell.num q), (facet, w)] } := by
  intro vs
  induction vs with
  | nil =>
      intro rest h r hr
      rw [loopIll] at h
      injection h with h
      subst h
      cases hr
  | cons w vs ih =>
      intro rest h r hr
      rw [loopIll] at h
      cases hgd : groupForecastDf fitFn m hz facet col df w with
      | exn e =>
          rw [hgd] at h
          exact PyRes.noConfusion h
      | ok fr =>
          rw [hgd] at h
          cases hrec : loopIll fitFn m hz facet col df vs with
          | exn e =>
              rw [hrec] at h
              exact PyRes.noConfusion h
          | ok rest' =>
              rw [hrec] at h
              injection h with h
              subst h
              rcases List.mem_append.mp hr with hr' | hr'
              · obtain ⟨vals, rfl⟩ := groupForecastDf_rows fitFn m hz facet col df w fr hgd
                obtain ⟨k, hk, rfl⟩ := List.mem_map.mp hr'
                exact ⟨w, List.mem_cons_self w vs, k, List.mem_range.mp hk,
                  fitFn vals (k + 1), rfl⟩
              · obtain ⟨w', hw', k, hk, q, hq⟩ := ih rest' hrec r hr'
                exact ⟨w', List.mem_cons_of_mem w hw', k, hk, q, hq⟩

lemma loopCols_mem_shape (fitFn : List ℚ → ℕ → ℚ) (m hz : ℕ) (facet : String)
    (df : List FRow) (uniq : List Cell) :
    ∀ (cs : List String) (rest : List FRow),
      loopCols fitFn m hz facet df uniq cs = PyRes.ok rest →
      ∀ r ∈ rest, ∃ c ∈ cs, ∃ w ∈ uniq, ∃ k, k < hz ∧ ∃ q : ℚ,
        r = { date := (((asfreqWFRI (groupOf df facet w)).getLast?).map FRow.date).getD 0
                + 7 * (k + 1),
              cells := [(c ++ "_forecast", Cell.num q), (facet, w)] } := by
  intro cs
  induction cs with
  | nil =>
      intro rest h r hr
      rw [loopCols] at h
      injection h with h
      subst h
      cases hr
  | cons c0 cs ih =>
      intro rest h r hr
      rw [loopCols] at h
      cases hli : loopIll fitFn m hz facet c0 df uniq with
      | exn e =>
          rw [hli] at h
          exact PyRes.noConfusion h
      | ok fr =>
          rw [hli] at h
          cases hrec : loopCols fitFn m hz facet df uniq cs with
          | exn e =>
              rw [hrec] at h
              exact PyRes.noConfusion h
          | ok rest' =>
              rw [hrec] at h
              injection h with h
              subst h
              rcases List.mem_append.mp hr with hr' | hr'
              · obtain ⟨w, hw, k, hk, q, hq⟩ :=
                  loopIll_mem_shape fitFn m hz facet c0 df uniq fr hli r hr'
                exact ⟨c0, List.mem_cons_self c0 cs, w, hw, k, hk, q, hq⟩
              · obtain ⟨c, hc, w, hw, k, hk, q, hq⟩ := ih rest' hrec r hr'
                exact ⟨c, List.mem_cons_of_mem c0 hc, w, hw, k, hk, q, hq⟩

/-- C6.  On a successful run whose input carries no pre-existing
`<col>_forecast` column, the output is the original rows followed by the
forecast rows: restricting the output to the original rows and filtering
out the forecast columns recovers exactly the original table, and
forecast values live only under the fresh `<col>_forecast` keys (plus the
facet tag), never inside a historical column. -/
theorem add_forecasts_roundtrip (fitFn : List ℚ → ℕ → ℚ) (df : List FRow)
    (cols : List String) (facet : String) (hz m : ℕ) (out : List FRow)
    (hok : add_forecasts fitFn df cols facet hz m = PyRes.ok out)
    (hclean : ∀ r ∈ df, ∀ kv ∈ r.cells, ∀ c ∈ cols, kv.1 ≠ c ++ "_forecast") :
    out.take df.length = df ∧
    (out.take df.length).map (dropForecastCols cols) = df ∧
    (∀ r ∈ out.drop df.length, ∀ kv ∈ r.cells,
      (∃ c ∈ cols, kv.1 = c ++ "_forecast") ∨ kv.1 = facet) := by
  obtain ⟨fdfs, hlc, rfl⟩ := add_forecasts_ok_concat fitFn df cols facet hz m _ hok
  refine ⟨List.take_left df fdfs, ?_, ?_⟩
  · rw [List.take_left]
    have hid : ∀ r ∈ df, dropForecastCols cols r = r := by
      intro r hr
      have hf : r.cells.filter
          (fun kv => !(cols.any (fun c => kv.1 == c ++ "_forecast"))) = r.cells := by
        refine List.filter_eq_self.mpr ?_
        intro kv hkv
        simp only [Bool.not_eq_true', List.any_eq_false, beq_iff_eq]
        exact fun c hc => hclean r hr kv hkv c hc
      unfold dropForecastCols
      cases r with
      | mk d cs => simpa using hf
    rw [List.map_congr_left hid]
    exact List.map_id' df
  · rw [List.drop_left]
    intro r hr kv hkv
    obtain ⟨c, hc, w, hw, k, hk, q, rfl⟩ :=
      loopCols_mem_shape fitFn m hz facet df _ cols fdfs hlc r hr
    rcases List.mem_cons.mp hkv with rfl | hkv'
    · exact Or.inl ⟨c, hc, rfl⟩
    · rcases List.mem_cons.mp hkv' with rfl | h0
      · exact Or.inr rfl
      · cases h0

/-- The input table used by the successful-run witnesses: one group "A"
with two Friday observations. -/
def dfDemo : List FRow :=
  [{ date := 8, cells := [("g", Cell.str "A"), ("y", Cell.num 1)] },
   { date := 15, cells := [("g", Cell.str "A"), ("y", Cell.num 2)] }]

/-- A trivial instantiation of the abstracted numeric fit. -/
def zeroFit : List ℚ → ℕ → ℚ := fun _ _ => 0

/-- The output `add_forecasts zeroFit dfDemo ["y"] "g" 1 1` produces. -/
def dfDemoOut : List FRow :=
  dfDemo ++ [{ date := 22, cells := [("y_forecast", Cell.num 0), ("g", Cell.str "A")] }]

/-- Concrete instance of C6: the round trip holds on a successful run. -/
theorem add_forecasts_roundtrip_witness :
    add_forecasts zeroFit dfDemo ["y"] "g" 1 1 = PyRes.ok dfDemoOut ∧
    dfDemoOut.take dfDemo.length = dfDemo ∧
    (dfDemoOut.take dfDemo.length).map (dropForecastCols ["y"]) = dfDemo := by
  have hok : add_forecasts zeroFit dfDemo ["y"] "g" 1 1 = PyRes.ok dfDemoOut := by decide
  obtain ⟨h1, h2, -⟩ :=
    add_forecasts_roundtrip zeroFit dfDemo ["y"] "g" 1 1 dfDemoOut hok (by decide)
  exact ⟨hok, h1, h2⟩

/-- C8.  On a successful single-column run, every group contributes
exactly `prediction_horizon` forecast rows: the rows tagged with the
group's facet value and carrying a numeric `<col>_forecast` cell number
exactly `hz`, and each of them sits `7 * k` days (`1 ≤ k ≤ hz`) after the
group's last observed timestamp — strictly after it, continuing the
weekly cadence. -/
theorem add_forecasts_horizon_rows (fitFn : List ℚ → ℕ → ℚ) (df : List FRow)
    (col facet : String) (hz m : ℕ) (out : List FRow) (v : Cell)
    (hok : add_forecasts fitFn df [col] facet hz m = PyRes.ok out)
    (hv : v ∈ firstUniques (df.map (fun r => getCell r facet)))
    (hneq : facet ≠ col ++ "_forecast")
    (hclean : ∀ r ∈ df, ∀ kv ∈ r.cells, kv.1 ≠ col ++ "_forecast")
    (hne : groupOf df facet v ≠ [])
    (hsort : (groupOf df facet v).Pairwise (fun a b => a.date < b.date))
    (hfri : ∀ r ∈ groupOf df facet v, r.date % 7 = 1) :
    out.countP (fun r => decide (getCell r facet = v) &&
      isNumCell (getCell r (col ++ "_forecast"))) = hz ∧
    (∀ r ∈ out, getCell r facet = v →
      isNumCell (getCell r (col ++ "_forecast")) = true →
      ∃ k, 1 ≤ k ∧ k ≤ hz ∧
        r.date = ((groupOf df facet v).getLast hne).date + 7 * k ∧
        ((groupOf df facet v).getLast hne).date < r.date) := by
  obtain ⟨fdfs, hlc, rfl⟩ := add_forecasts_ok_concat fitFn df [col] facet hz m _ hok
  have hli := loopCols_single fitFn m hz facet col df _ fdfs hlc
  have hdf0 : ∀ r ∈ df, (decide (getCell r facet = v) &&
      isNumCell (getCell r (col ++ "_forecast"))) = false := by
    intro r hr
    rw [getCell_na_of_no_key r _ (fun kv hkv => hclean r hr kv hkv)]
    simp [isNumCell]
  constructor
  · rw [List.countP_append]
    rw [List.countP_eq_zero.mpr (by intro a ha; rw [hdf0 a ha]; simp)]
    rw [loopIll_countP fitFn m hz facet col df hneq _ fdfs
      (firstUniques_nodup _) hli v]
    simp [hv]
  · intro r hr htag hnum
    rcases List.mem_append.mp hr with hr' | hr'
    · exfalso
      have := hdf0 r hr'
      rw [htag, hnum] at this
      simp at this
    · obtain ⟨w, hw, k, hk, q, rfl⟩ :=
        loopIll_mem_shape fitFn m hz facet col df _ fdfs hli r hr'
      rw [getCell_frow₂ _ _ _ _ _ hneq] at htag
      subst htag
      refine ⟨k + 1, by omega, by omega, ?_, ?_⟩
      · simp only
        rw [asfreq_getLast_date (groupOf df facet w) hne hsort hfri]
      · simp only
        rw [asfreq_getLast_date (groupOf df facet w) hne hsort hfri]
        omega

/-- Concrete instance of C8: the single-group demo input with horizon 1
produces exactly one forecast row for the group. -/
theorem add_forecasts_horizon_rows_witness :
    add_forecasts zeroFit dfDemo ["y"] "g" 1 1 = PyRes.ok dfDemoOut ∧
    dfDemoOut.countP (fun r => decide (getCell r "g" = Cell.str "A") &&
      isNumCell (getCell r ("y" ++ "_forecast"))) = 1 := by
  have hok : add_forecasts zeroFit dfDemo ["y"] "g" 1 1 = PyRes.ok dfDemoOut := by decide
  refine ⟨hok, ?_⟩
  exact (add_forecasts_horizon_rows zeroFit dfDemo "y" "g" 1 1 dfDemoOut (Cell.str "A")
    hok (by decide) (by decide) (by decide) (by decide) (by decide) (by decide)).1

end VirusRadar
